import Mathlib

/-!
Shallow embedding of `ext/http/request_properties.rs`: the transport-agnostic
HTTP request-context resolver (listen / connection / request property
builders, and the host-determination helpers `req_host_from_addr`,
`req_scheme_from_stream_type`, `req_host`).

Machine integers (`u16` ports, header/path bytes) are modelled as `Nat`;
no arithmetic here can overflow, ports and bytes are only compared and
printed.  Rust `Option` is Lean `Option`; `Cow<str>`, `Rc<str>` and
`&'static str` are all plain `String` (only ownership differs in Rust, not
the value).  Socket addresses are modelled in their IPv4 form, the form all
of the code's port/loopback/unspecified logic is written against.
-/

/-- Transport kind of a network stream (`deno_net::raw::NetworkStreamType`):
plain TCP, TLS over TCP, or a Unix domain socket. -/
inductive NetworkStreamType where
  | Tcp
  | Tls
  | Unix
deriving DecidableEq

/-- An IPv4 address as its four octets (Rust `std::net::Ipv4Addr`). -/
structure Ipv4Addr where
  o1 : Nat
  o2 : Nat
  o3 : Nat
  o4 : Nat
deriving DecidableEq

/-- Rust `Ipv4Addr::is_loopback`: the address is in `127.0.0.0/8`. -/
def Ipv4Addr.is_loopback (ip : Ipv4Addr) : Bool :=
  ip.o1 = 127

/-- Rust `Ipv4Addr::is_unspecified`: the address is `0.0.0.0`. -/
def Ipv4Addr.is_unspecified (ip : Ipv4Addr) : Bool :=
  ip.o1 = 0 && ip.o2 = 0 && ip.o3 = 0 && ip.o4 = 0

/-- Rust `Display` for `Ipv4Addr`: dotted decimal. -/
def Ipv4Addr.to_string (ip : Ipv4Addr) : String :=
  Nat.repr ip.o1 ++ "." ++ Nat.repr ip.o2 ++ "." ++ Nat.repr ip.o3 ++ "."
    ++ Nat.repr ip.o4

/-- An IP socket address: IP plus port (Rust `std::net::SocketAddr`). -/
structure SocketAddr where
  ip : Ipv4Addr
  port : Nat
deriving DecidableEq

/-- Rust `Display` for an IPv4 `SocketAddr`: `ip:port`. -/
def SocketAddr.to_string (a : SocketAddr) : String :=
  a.ip.to_string ++ ":" ++ Nat.repr a.port

/-- A Unix domain socket address (`tokio::net::unix::SocketAddr`).  The field
`pathname` models `addr.as_pathname().and_then(|x| x.to_str())` as one step:
`some p` when the socket is bound to a filesystem pathname that is
representable as text, `none` when the socket is unnamed/abstract or its
path is not valid text. -/
structure UnixAddr where
  pathname : Option String
deriving DecidableEq

/-- `deno_net::raw::NetworkStreamAddress`: an IP socket address or a Unix
domain socket address. -/
inductive NetworkStreamAddress where
  | Ip (addr : SocketAddr)
  | Unix (addr : UnixAddr)
deriving DecidableEq

/-- Is byte `b` an ASCII alphanumeric?  The complement (within ASCII) of
`percent_encoding::NON_ALPHANUMERIC`. -/
def isAsciiAlphanumeric (b : Nat) : Bool :=
  (48 ≤ b && b ≤ 57) || (65 ≤ b && b ≤ 90) || (97 ≤ b && b ≤ 122)

/-- Upper-case hexadecimal digit characters, as emitted by the
`percent_encoding` crate after a percent sign. -/
def hexUpperChar (n : Nat) : Char :=
  ("0123456789ABCDEF".data).getD n '0'

/-- `percent_encoding` of one byte under the `NON_ALPHANUMERIC` set:
non-ASCII bytes and all non-alphanumeric ASCII bytes are escaped as `%XY`
(upper-case hex); ASCII alphanumerics pass through. -/
def percentEncodeByte (b : Nat) : List Char :=
  if isAsciiAlphanumeric b then [Char.ofNat b]
  else ['%', hexUpperChar (b / 16), hexUpperChar (b % 16)]

/-- `percent_encoding::percent_encode(bytes, NON_ALPHANUMERIC).to_string()`. -/
def percentEncode (bs : List Nat) : String :=
  ⟨bs.flatMap percentEncodeByte⟩

/-- The value of one hexadecimal digit character, either case, as accepted
by `percent_encoding::percent_decode`. -/
def hexDigitValue (c : Char) : Option Nat :=
  if '0' ≤ c ∧ c ≤ '9' then some (c.toNat - 48)
  else if 'A' ≤ c ∧ c ≤ 'F' then some (c.toNat - 55)
  else if 'a' ≤ c ∧ c ≤ 'f' then some (c.toNat - 87)
  else none

/-- `percent_encoding::percent_decode` over the characters of a token: a
`%` followed by two hex digits yields the byte they denote; any other
character yields its own code point (for the all-ASCII tokens produced by
`percentEncode` this is exactly the byte the character was written as). -/
def percentDecode : List Char → List Nat
  | [] => []
  | '%' :: h :: l :: rest =>
    (match hexDigitValue h, hexDigitValue l with
     | some hv, some lv => (hv * 16 + lv) :: percentDecode rest
     | _, _ => ('%').toNat :: percentDecode (h :: l :: rest))
  | c :: rest => c.toNat :: percentDecode rest

/-- The standard UTF-8 encoding of one character: the bytes a Rust `str`
stores for it. -/
def utf8EncodeBytes (c : Char) : List Nat :=
  let n := c.toNat
  if n < 128 then [n]
  else if n < 2048 then [192 + n / 64, 128 + n % 64]
  else if n < 65536 then [224 + n / 4096, 128 + n / 64 % 64, 128 + n % 64]
  else [240 + n / 262144, 128 + n / 4096 % 64, 128 + n / 64 % 64,
    128 + n % 64]

/-- The UTF-8 byte sequence of a string: Rust `str::as_bytes`. -/
def utf8Bytes (s : String) : List Nat :=
  s.data.flatMap utf8EncodeBytes

/-- `http::uri::Authority`, restricted to the view this code reads from it:
the host and the optional explicit port.  (A parsed authority's host can
never contain `/`, `?` or `#` — the URI grammar ends the authority there;
theorems that need this carry it as a hypothesis.) -/
structure Authority where
  host : String
  port : Option Nat
deriving DecidableEq

/-- `Authority::as_str()`: the full authority string, `host` or
`host:port`. -/
def Authority.as_str (a : Authority) : String :=
  a.host ++ (match a.port with
    | none => ""
    | some p => ":" ++ Nat.repr p)

/-- `hyper::Uri`, restricted to the one accessor this code uses:
`uri.authority()`. -/
structure Uri where
  authority : Option Authority
deriving DecidableEq

/-- `hyper::HeaderMap`, as the ordered list of (lowercase name, raw value
bytes) pairs; `headerGet` is `HeaderMap::get`: the first value stored under
the given (lowercase) name. -/
def headerGet (headers : List (String × List Nat)) (name : String) :
    Option (List Nat) :=
  match headers with
  | [] => none
  | (n, v) :: rest => if n = name then some v else headerGet rest name

/-- `HeaderValue::to_str`: succeeds iff every byte is visible ASCII or tab,
yielding those bytes as characters; fails otherwise. -/
def headerValueToStr (v : List Nat) : Option String :=
  if v.all (fun b => (32 ≤ b && b < 127) || b = 9) then
    some ⟨v.map Char.ofNat⟩
  else none

/-- The string `req_host` derives from a `HOST` header value: `to_str` when
the bytes are valid visible text, else the byte-for-byte lossy conversion
`host.as_bytes().iter().cloned().map(char::from).collect()`. -/
def headerHostValue (v : List Nat) : String :=
  match headerValueToStr v with
  | some s => s
  | none => ⟨v.map Char.ofNat⟩

/-- `req_host_from_addr`: the fallback host computed from the listener's
address.  IP branch: on the conventional port for the transport
(TLS 443 / TCP 80) a loopback or unspecified IP becomes `localhost` and any
other IP its bare string; off the conventional port a loopback or
unspecified IP becomes `localhost:port` and any other address its full
`ip:port` string.  Unix branch: percent-encode the bytes of the socket
path's textual form (empty string when it has none) under
`NON_ALPHANUMERIC`. -/
def req_host_from_addr (stream_type : NetworkStreamType)
    (addr : NetworkStreamAddress) : String :=
  match addr with
  | .Ip addr =>
    if (stream_type = .Tls ∧ addr.port = 443)
        ∨ (stream_type = .Tcp ∧ addr.port = 80) then
      if addr.ip.is_loopback || addr.ip.is_unspecified then "localhost"
      else addr.ip.to_string
    else
      if addr.ip.is_loopback || addr.ip.is_unspecified then
        "localhost:" ++ Nat.repr addr.port
      else addr.to_string
  | .Unix unix => percentEncode (utf8Bytes (unix.pathname.getD ""))

/-- `req_scheme_from_stream_type`: the static scheme literal for a
transport kind. -/
def req_scheme_from_stream_type (stream_type : NetworkStreamType) : String :=
  match stream_type with
  | .Tcp => "http://"
  | .Tls => "https://"
  | .Unix => "http+unix://"

/-- `req_host`: the host-resolution fallback chain.  Unix transport: none.
URI authority present: on TCP with local port 80 or TLS with local port 443
just the authority's host, otherwise the full authority string.  Otherwise
the `HOST` header value (lossily decoded) when present, else none. -/
def req_host (uri : Uri) (headers : List (String × List Nat))
    (addr_type : NetworkStreamType) (port : Nat) : Option String :=
  if addr_type = .Unix then none
  else
    match uri.authority with
    | some auth =>
      match addr_type with
      | .Tcp => if port = 80 then some auth.host else some auth.as_str
      | .Tls => if port = 443 then some auth.host else some auth.as_str
      | .Unix => some auth.as_str
    | none =>
      match headerGet headers "host" with
      | some v => some (headerHostValue v)
      | none => none

/-- `HttpListenProperties`. -/
structure HttpListenProperties where
  stream_type : NetworkStreamType
  scheme : String
  fallback_host : String
  local_port : Option Nat
deriving DecidableEq

/-- `HttpConnectionProperties`. -/
structure HttpConnectionProperties where
  stream_type : NetworkStreamType
  peer_address : String
  peer_port : Option Nat
  local_port : Option Nat
deriving DecidableEq

/-- `HttpRequestProperties`. -/
structure HttpRequestProperties where
  authority : Option String
deriving DecidableEq

/-- `DefaultHttpPropertyExtractor::listen_properties`. -/
def listen_properties (stream_type : NetworkStreamType)
    (local_address : NetworkStreamAddress) : HttpListenProperties :=
  { stream_type := stream_type
    scheme := req_scheme_from_stream_type stream_type
    fallback_host := req_host_from_addr stream_type local_address
    local_port :=
      match local_address with
      | .Ip ip => some ip.port
      | .Unix _ => none }

/-- `DefaultHttpPropertyExtractor::connection_properties`. -/
def connection_properties (listen_properties : HttpListenProperties)
    (peer_address : NetworkStreamAddress) : HttpConnectionProperties :=
  { stream_type := listen_properties.stream_type
    peer_address :=
      match peer_address with
      | .Ip addr => addr.ip.to_string
      | .Unix _ => "unix"
    peer_port :=
      match peer_address with
      | .Ip ip => some ip.port
      | .Unix _ => none
    local_port := listen_properties.local_port }

/-- `DefaultHttpPropertyExtractor::request_properties`:
`req_host(uri, headers, stream_type, local_port.unwrap_or_default())`,
owned. -/
def request_properties (connection_properties : HttpConnectionProperties)
    (uri : Uri) (headers : List (String × List Nat)) :
    HttpRequestProperties :=
  { authority :=
      req_host uri headers connection_properties.stream_type
        (connection_properties.local_port.getD 0) }

/-- Does `s` start with one of the three scheme literals this module can
produce?  Used to state the no-scheme-prefix invariant. -/
def startsWithScheme (s : String) : Bool :=
  decide (s.data.take 7 = "http://".data)
    || decide (s.data.take 8 = "https://".data)
    || decide (s.data.take 12 = "http+unix://".data)

/-! ### Helper lemmas -/

theorem char_toNat_ofNat (n : Nat) (h : n.isValidChar) :
    (Char.ofNat n).toNat = n := by
  simp only [Char.ofNat, h, Char.ofNatAux, Char.toNat, dite_true]
  rfl

theorem digitChar_isDigit : ∀ m, m < 10 → (Nat.digitChar m).isDigit = true := by
  decide

theorem toDigitsCore_all_digits (fuel : Nat) : ∀ (n : Nat) (ds : List Char),
    (∀ c ∈ ds, c.isDigit = true) →
    ∀ c ∈ Nat.toDigitsCore 10 fuel n ds, c.isDigit = true := by
  induction fuel with
  | zero => intro n ds hds; simpa [Nat.toDigitsCore] using hds
  | succ fuel ih =>
    intro n ds hds c hc
    simp only [Nat.toDigitsCore] at hc
    have hcons : ∀ d ∈ Nat.digitChar (n % 10) :: ds, d.isDigit = true := by
      intro d hd
      rcases List.mem_cons.mp hd with rfl | hmem
      · exact digitChar_isDigit _ (Nat.mod_lt _ (by decide))
      · exact hds _ hmem
    by_cases h : n / 10 = 0
    · rw [if_pos h] at hc
      exact hcons c hc
    · rw [if_neg h] at hc
      exact ih _ _ hcons c hc

theorem repr_all_digits (n : Nat) : ∀ c ∈ (Nat.repr n).data, c.isDigit = true := by
  intro c hc
  exact toDigitsCore_all_digits (n + 1) n [] (by simp) c hc

theorem repr_no_slash (n : Nat) : ('/') ∉ (Nat.repr n).data := by
  intro hmem
  have := repr_all_digits n _ hmem
  simp [Char.isDigit] at this

theorem ipv4_to_string_has_dot (ip : Ipv4Addr) :
    ('.') ∈ (Ipv4Addr.to_string ip).data := by
  simp [Ipv4Addr.to_string, String.data_append]

theorem ipv4_to_string_ne_localhost (ip : Ipv4Addr) :
    Ipv4Addr.to_string ip ≠ "localhost" := by
  intro h
  have := ipv4_to_string_has_dot ip
  rw [h] at this
  simp at this

/-! ### Claim theorems -/

/-- C1 (counterexample to the claim as stated): on Plain transport with
local port 80, a URI authority `example.com:8080` — whose own port is 8080,
not 80 — is *not* returned as the full `host:port` string; `req_host`
returns only `example.com`, because the default-port test looks at the
connection's local port, never at the authority's port. -/
theorem req_host_authority_port_cex :
    req_host ⟨some ⟨"example.com", some 8080⟩⟩ [] .Tcp 80
        = some "example.com"
      ∧ some "example.com" ≠ some "example.com:8080" := by
  decide

/-- C1 (amended): with a URI authority present and a non-PathBased
transport, `req_host` keys the default-port elision on the connection's
local port: on Plain transport it returns only the authority's host part
when the local port is 80 and the full authority string otherwise;
symmetrically for Encrypted transport with local port 443. -/
theorem req_host_authority_local_port_elision (uri : Uri)
    (headers : List (String × List Nat)) (auth : Authority) (port : Nat)
    (hu : uri.authority = some auth) :
    (port = 80 → req_host uri headers .Tcp port = some auth.host)
      ∧ (port ≠ 80 → req_host uri headers .Tcp port = some auth.as_str)
      ∧ (port = 443 → req_host uri headers .Tls port = some auth.host)
      ∧ (port ≠ 443 → req_host uri headers .Tls port = some auth.as_str) := by
  refine ⟨?_, ?_, ?_, ?_⟩ <;> intro hp <;> simp [req_host, hu, hp]

/-- C1 (witness): concrete instances of the amended claim, including the
verbatim `example.com:8080` case (local port 8080). -/
theorem req_host_authority_local_port_elision_witness :
    req_host ⟨some ⟨"example.com", some 80⟩⟩ [] .Tcp 80 = some "example.com"
      ∧ req_host ⟨some ⟨"example.com", some 8080⟩⟩ [] .Tcp 8080
          = some "example.com:8080" := by
  constructor
  · exact (req_host_authority_local_port_elision _ [] _ 80 rfl).1 rfl
  · exact ((req_host_authority_local_port_elision
      ⟨some ⟨"example.com", some 8080⟩⟩ [] ⟨"example.com", some 8080⟩ 8080
      rfl).2.1 (by decide)).trans (by decide)

/-- C4: on PathBased (Unix) transport, `req_host` returns `none` for every
URI, header collection and port. -/
theorem req_host_unix_none (uri : Uri) (headers : List (String × List Nat))
    (port : Nat) : req_host uri headers .Unix port = none := by
  rfl

/-- C7: `connection_properties` always copies the listener's local port:
the resulting record's `local_port` equals `ListenProperties.local_port`. -/
theorem connection_properties_local_port (lp : HttpListenProperties)
    (peer : NetworkStreamAddress) :
    (connection_properties lp peer).local_port = lp.local_port := by
  rfl

/-- C8: for every IP peer address, `connection_properties` stringifies the
bare IP as the peer host — and that string is never `"localhost"`, whatever
the IP (loopback and unspecified included). -/
theorem connection_properties_peer_bare_ip (lp : HttpListenProperties)
    (addr : SocketAddr) :
    (connection_properties lp (.Ip addr)).peer_address
        = addr.ip.to_string
      ∧ addr.ip.to_string ≠ "localhost" := by
  exact ⟨rfl, ipv4_to_string_ne_localhost addr.ip⟩

/-- C9: the scheme mapper is a total function on the closed transport-kind
enumeration, returning a fixed static scheme literal per kind: the `http`
scheme literal for Plain, the `https` one for Encrypted and the
`http+unix`-style one for PathBased. -/
theorem req_scheme_total_fixed_literals :
    req_scheme_from_stream_type .Tcp = "http://"
      ∧ req_scheme_from_stream_type .Tls = "https://"
      ∧ req_scheme_from_stream_type .Unix = "http+unix://" := by
  exact ⟨rfl, rfl, rfl⟩

/-- C10: for every Unix (filesystem-path) peer address,
`connection_properties` sets the peer host to the constant `"unix"` (the
socket path is never encoded into it) and the peer port to `none`. -/
theorem connection_properties_unix_peer (lp : HttpListenProperties)
    (u : UnixAddr) :
    (connection_properties lp (.Unix u)).peer_address = "unix"
      ∧ (connection_properties lp (.Unix u)).peer_port = none := by
  exact ⟨rfl, rfl⟩

/-- C3: classification of the IP fallback host.  When the IP is loopback or
unspecified: `localhost` on the transport's conventional port (80 Plain,
443 Encrypted), `localhost:<port>` otherwise.  When it is neither: the bare
IP string on the conventional port, the full `<ip>:<port>` string
otherwise. -/
theorem req_host_from_addr_ip_classification (ip : Ipv4Addr) (port : Nat) :
    ((ip.is_loopback || ip.is_unspecified) = true →
      req_host_from_addr .Tcp (.Ip ⟨ip, 80⟩) = "localhost"
        ∧ req_host_from_addr .Tls (.Ip ⟨ip, 443⟩) = "localhost"
        ∧ (port ≠ 80 → req_host_from_addr .Tcp (.Ip ⟨ip, port⟩)
            = "localhost:" ++ Nat.repr port)
        ∧ (port ≠ 443 → req_host_from_addr .Tls (.Ip ⟨ip, port⟩)
            = "localhost:" ++ Nat.repr port))
      ∧ ((ip.is_loopback || ip.is_unspecified) = false →
        req_host_from_addr .Tcp (.Ip ⟨ip, 80⟩) = ip.to_string
          ∧ req_host_from_addr .Tls (.Ip ⟨ip, 443⟩) = ip.to_string
          ∧ (port ≠ 80 → req_host_from_addr .Tcp (.Ip ⟨ip, port⟩)
              = ip.to_string ++ ":" ++ Nat.repr port)
          ∧ (port ≠ 443 → req_host_from_addr .Tls (.Ip ⟨ip, port⟩)
              = ip.to_string ++ ":" ++ Nat.repr port)) := by
  constructor <;> intro h
  · refine ⟨?_, ?_, ?_, ?_⟩
    · simp [req_host_from_addr, h]
    · simp [req_host_from_addr, h]
    · intro hp; simp [req_host_from_addr, h, hp]
    · intro hp; simp [req_host_from_addr, h, hp]
  · refine ⟨?_, ?_, ?_, ?_⟩
    · simp [req_host_from_addr, h]
    · simp [req_host_from_addr, h]
    · intro hp; simp [req_host_from_addr, h, hp, SocketAddr.to_string]
    · intro hp; simp [req_host_from_addr, h, hp, SocketAddr.to_string]

/-- C3 (witness): the spec's own examples, evaluated through the theorem:
`127.0.0.1:80` on Plain gives `localhost`; `0.0.0.0:443` on Encrypted gives
`localhost`; `127.0.0.1:8080` on Plain gives `localhost:8080`;
`203.0.113.5:443` on Encrypted gives `203.0.113.5`, and on 8443 the full
`203.0.113.5:8443`. -/
theorem req_host_from_addr_ip_classification_witness :
    req_host_from_addr .Tcp (.Ip ⟨⟨127, 0, 0, 1⟩, 80⟩) = "localhost"
      ∧ req_host_from_addr .Tls (.Ip ⟨⟨0, 0, 0, 0⟩, 443⟩) = "localhost"
      ∧ req_host_from_addr .Tcp (.Ip ⟨⟨127, 0, 0, 1⟩, 8080⟩)
          = "localhost:8080"
      ∧ req_host_from_addr .Tls (.Ip ⟨⟨203, 0, 113, 5⟩, 443⟩) = "203.0.113.5"
      ∧ req_host_from_addr .Tls (.Ip ⟨⟨203, 0, 113, 5⟩, 8443⟩)
          = "203.0.113.5:8443" := by
  refine ⟨?_, ?_, ?_, ?_, ?_⟩
  · exact ((req_host_from_addr_ip_classification ⟨127, 0, 0, 1⟩ 80).1
      (by decide)).1
  · exact ((req_host_from_addr_ip_classification ⟨0, 0, 0, 0⟩ 443).1
      (by decide)).2.1
  · exact (((req_host_from_addr_ip_classification ⟨127, 0, 0, 1⟩ 8080).1
      (by decide)).2.2.1 (by decide)).trans (by decide)
  · exact (((req_host_from_addr_ip_classification ⟨203, 0, 113, 5⟩ 443).2
      (by decide)).2.1).trans (by decide)
  · exact (((req_host_from_addr_ip_classification ⟨203, 0, 113, 5⟩ 8443).2
      (by decide)).2.2.2 (by decide)).trans (by decide)

/-- C5: with no URI authority, a non-PathBased transport and a `HOST`
header whose bytes are not valid text, `req_host` always succeeds with the
byte-for-byte lossy conversion: the result's character count equals the
header value's byte count and each character is the code point of the
corresponding raw byte. -/
theorem req_host_header_lossy (uri : Uri)
    (headers : List (String × List Nat)) (t : NetworkStreamType)
    (port : Nat) (v : List Nat) (ht : t ≠ .Unix)
    (hu : uri.authority = none) (hv : headerGet headers "host" = some v)
    (hbad : headerValueToStr v = none) (hb : ∀ b ∈ v, b < 256) :
    req_host uri headers t port = some ⟨v.map Char.ofNat⟩
      ∧ (String.mk (v.map Char.ofNat)).length = v.length
      ∧ (v.map Char.ofNat).map Char.toNat = v := by
  refine ⟨?_, ?_, ?_⟩
  · simp [req_host, ht, hu, hv, headerHostValue, hbad]
  · simp [String.length]
  · rw [List.map_map]
    have : ∀ b ∈ v, (Char.toNat ∘ Char.ofNat) b = b := by
      intro b hbm
      exact char_toNat_ofNat b (Or.inl (by have := hb b hbm; omega))
    calc v.map (Char.toNat ∘ Char.ofNat) = v.map id := List.map_congr_left this
      _ = v := List.map_id v

/-- C5 (witness): the header bytes `[104, 105, 255]` (a high-bit byte, not
valid text) decode losslessly to a three-character string. -/
theorem req_host_header_lossy_witness :
    req_host ⟨none⟩ [("host", [104, 105, 255])] .Tcp 80
        = some ⟨[104, 105, 255].map Char.ofNat⟩
      ∧ (String.mk ([104, 105, 255].map Char.ofNat)).length
          = [104, 105, 255].length
      ∧ ([104, 105, 255].map Char.ofNat).map Char.toNat
          = [104, 105, 255] := by
  exact req_host_header_lossy ⟨none⟩ [("host", [104, 105, 255])] .Tcp 80
    [104, 105, 255] (by decide) rfl rfl (by decide) (by decide)

theorem authority_as_str_no_slash (a : Authority)
    (h : ('/') ∉ a.host.data) : ('/') ∉ (a.as_str).data := by
  intro hmem
  simp only [Authority.as_str, String.data_append] at hmem
  rcases List.mem_append.mp hmem with hL | hR
  · exact h hL
  · cases hp : a.port with
    | none => rw [hp] at hR; simp at hR
    | some p =>
      rw [hp] at hR
      simp only [String.data_append] at hR
      rcases List.mem_append.mp hR with hc | hd
      · simp at hc
      · exact repr_no_slash p hd

theorem startsWithScheme_false_of_no_slash (s : String)
    (h : ('/') ∉ s.data) : startsWithScheme s = false := by
  simp only [startsWithScheme, Bool.or_eq_false_iff, decide_eq_false_iff_not]
  refine ⟨⟨?_, ?_⟩, ?_⟩ <;> intro he <;>
    exact h (List.take_subset _ _ (by rw [he]; decide))

/-- C2 (counterexample to the claim as stated): a `HOST` header whose value
is itself `http://evil` is passed through verbatim, so the resulting
authority *does* contain a scheme prefix — the invariant cannot hold for
every header collection. -/
theorem request_properties_scheme_passthrough_cex :
    (request_properties ⟨.Tcp, "203.0.113.5", some 49152, some 80⟩ ⟨none⟩
        [("host", [104, 116, 116, 112, 58, 47, 47, 101, 118, 105, 108])]
      ).authority = some "http://evil"
      ∧ startsWithScheme "http://evil" = true := by
  decide

/-- C2 (amended): the resolver never *adds* a scheme prefix.  Whenever the
URI's authority (if any) has a slash-free host — true of every parsed
authority — and the `HOST` header's decoded value (if any) does not itself
start with a scheme prefix, any authority produced by `request_properties`
is free of scheme prefixes. -/
theorem request_properties_no_scheme_added (cp : HttpConnectionProperties)
    (uri : Uri) (headers : List (String × List Nat))
    (hwf : ∀ auth, uri.authority = some auth → ('/') ∉ auth.host.data)
    (hh : ∀ v, headerGet headers "host" = some v →
      startsWithScheme (headerHostValue v) = false) :
    ∀ a, (request_properties cp uri headers).authority = some a →
      startsWithScheme a = false := by
  intro a ha
  simp only [request_properties] at ha
  revert ha
  unfold req_host
  by_cases ht : cp.stream_type = NetworkStreamType.Unix
  · simp [ht]
  · rw [if_neg ht]
    cases hu : uri.authority with
    | some auth =>
      have hhost : ('/') ∉ auth.host.data := hwf auth hu
      have hstr := authority_as_str_no_slash auth hhost
      cases htt : cp.stream_type with
      | Tcp =>
        dsimp only
        by_cases hp : cp.local_port.getD 0 = 80
        · rw [if_pos hp]
          intro ha
          cases ha
          exact startsWithScheme_false_of_no_slash _ hhost
        · rw [if_neg hp]
          intro ha
          cases ha
          exact startsWithScheme_false_of_no_slash _ hstr
      | Tls =>
        dsimp only
        by_cases hp : cp.local_port.getD 0 = 443
        · rw [if_pos hp]
          intro ha
          cases ha
          exact startsWithScheme_false_of_no_slash _ hhost
        · rw [if_neg hp]
          intro ha
          cases ha
          exact startsWithScheme_false_of_no_slash _ hstr
      | Unix => exact absurd htt ht
    | none =>
      cases hv : headerGet headers "host" with
      | some v =>
        dsimp only
        intro ha
        cases ha
        exact hh v hv
      | none => dsimp only; intro ha; cases ha

/-- C2 (witness): with a benign authority `example.com:8080` and no header,
the produced authority has no scheme prefix. -/
theorem request_properties_no_scheme_added_witness :
    startsWithScheme "example.com:8080" = false := by
  refine request_properties_no_scheme_added
    ⟨.Tcp, "203.0.113.5", some 49152, some 8080⟩
    ⟨some ⟨"example.com", some 8080⟩⟩ [] ?_ ?_ "example.com:8080" (by decide)
  · intro auth hauth
    cases hauth
    decide
  · intro v hv
    cases hv

theorem hexDigitValue_hexUpperChar :
    ∀ x, x < 16 → hexDigitValue (hexUpperChar x) = some x := by
  decide

theorem char_ofNat_ne_percent (b : Nat) (hb : isAsciiAlphanumeric b = true) :
    Char.ofNat b ≠ '%' := by
  intro he
  simp only [isAsciiAlphanumeric, Bool.or_eq_true, Bool.and_eq_true,
    decide_eq_true_eq] at hb
  have hv : b.isValidChar := Or.inl (by omega)
  have := char_toNat_ofNat b hv
  rw [he] at this
  have h37 : ('%').toNat = 37 := rfl
  omega

theorem percentDecode_cons_ne (c : Char) (cs : List Char) (h : c ≠ '%') :
    percentDecode (c :: cs) = c.toNat :: percentDecode cs := by
  match cs with
  | [] => simp [percentDecode, h]
  | [x] => simp [percentDecode, h]
  | x :: y :: rest => simp [percentDecode, h]

theorem percentDecode_encodeByte (b : Nat) (hb : b < 256)
    (cs : List Char) :
    percentDecode (percentEncodeByte b ++ cs) = b :: percentDecode cs := by
  by_cases ha : isAsciiAlphanumeric b = true
  · simp only [percentEncodeByte, if_pos ha, List.cons_append,
      List.nil_append]
    rw [percentDecode_cons_ne _ _ (char_ofNat_ne_percent b ha)]
    have hv : b.isValidChar := by
      simp only [isAsciiAlphanumeric, Bool.or_eq_true, Bool.and_eq_true,
        decide_eq_true_eq] at ha
      exact Or.inl (by omega)
    rw [char_toNat_ofNat b hv]
  · simp only [percentEncodeByte, if_neg ha, List.cons_append,
      List.nil_append]
    have h1 := hexDigitValue_hexUpperChar (b / 16) (by omega)
    have h2 := hexDigitValue_hexUpperChar (b % 16) (by omega)
    simp only [percentDecode, h1, h2]
    have : b / 16 * 16 + b % 16 = b := by omega
    rw [this]

theorem percentDecode_percentEncode (bs : List Nat)
    (hb : ∀ b ∈ bs, b < 256) :
    percentDecode (percentEncode bs).data = bs := by
  show percentDecode (bs.flatMap percentEncodeByte) = bs
  induction bs with
  | nil => rfl
  | cons b rest ih =>
    rw [List.flatMap_cons, percentDecode_encodeByte b (hb b (by simp))]
    rw [ih (fun x hx => hb x (by simp [hx]))]

theorem utf8EncodeBytes_lt (c : Char) : ∀ b ∈ utf8EncodeBytes c, b < 256 := by
  intro b hb
  have hv : c.toNat < 1114112 := by
    have := c.valid
    simp only [Char.toNat]
    rcases this with h | ⟨h1, h2⟩ <;> omega
  simp only [utf8EncodeBytes] at hb
  split at hb
  · simp only [List.mem_singleton] at hb; omega
  · split at hb
    · simp only [List.mem_cons, List.not_mem_nil, or_false] at hb
      rcases hb with rfl | rfl <;> omega
    · split at hb
      · simp only [List.mem_cons, List.not_mem_nil, or_false] at hb
        rcases hb with rfl | rfl | rfl <;> omega
      · simp only [List.mem_cons, List.not_mem_nil, or_false] at hb
        rcases hb with rfl | rfl | rfl | rfl <;> omega

theorem utf8Bytes_lt (s : String) : ∀ b ∈ utf8Bytes s, b < 256 := by
  intro b hb
  simp only [utf8Bytes, List.mem_flatMap] at hb
  obtain ⟨c, _, hc⟩ := hb
  exact utf8EncodeBytes_lt c b hc

/-- C6: for a PathBased listener address, the fallback host is exactly the
percent-encoding (under the non-alphanumeric rule) of the UTF-8 bytes of
the path's textual form, and percent-decoding that token recovers those
bytes — the original path — exactly; when the path has no textual form the
empty string is what gets encoded.  The function is total either way. -/
theorem req_host_from_addr_unix_percent_roundtrip (u : UnixAddr) :
    (∀ p, u.pathname = some p →
      req_host_from_addr .Unix (.Unix u) = percentEncode (utf8Bytes p)
        ∧ percentDecode (req_host_from_addr .Unix (.Unix u)).data
            = utf8Bytes p)
      ∧ (u.pathname = none →
        req_host_from_addr .Unix (.Unix u) = percentEncode (utf8Bytes "")) := by
  constructor
  · intro p hp
    have he : req_host_from_addr .Unix (.Unix u)
        = percentEncode (utf8Bytes p) := by
      simp [req_host_from_addr, hp]
    exact ⟨he, by rw [he]; exact percentDecode_percentEncode _ (utf8Bytes_lt p)⟩
  · intro hp
    simp [req_host_from_addr, hp]

/-- C6 (witness): the spec's example path `/tmp/sock` encodes to the single
opaque token `%2Ftmp%2Fsock`, and decoding it recovers the path's bytes. -/
theorem req_host_from_addr_unix_percent_roundtrip_witness :
    req_host_from_addr .Unix (.Unix ⟨some "/tmp/sock"⟩)
        = percentEncode (utf8Bytes "/tmp/sock")
      ∧ req_host_from_addr .Unix (.Unix ⟨some "/tmp/sock"⟩)
          = "%2Ftmp%2Fsock"
      ∧ percentDecode
            (req_host_from_addr .Unix (.Unix ⟨some "/tmp/sock"⟩)).data
          = utf8Bytes "/tmp/sock" := by
  have h := (req_host_from_addr_unix_percent_roundtrip
    ⟨some "/tmp/sock"⟩).1 "/tmp/sock" rfl
  exact ⟨h.1, by decide, h.2⟩

/-- C8 (witness): a loopback peer `127.0.0.1` stays the bare IP string and
is not rewritten to `localhost`. -/
theorem connection_properties_peer_bare_ip_witness :
    (connection_properties ⟨.Tcp, "http://", "localhost", some 80⟩
        (.Ip ⟨⟨127, 0, 0, 1⟩, 49152⟩)).peer_address
      = Ipv4Addr.to_string ⟨127, 0, 0, 1⟩
    ∧ Ipv4Addr.to_string ⟨127, 0, 0, 1⟩ ≠ "localhost" :=
  connection_properties_peer_bare_ip ⟨.Tcp, "http://", "localhost", some 80⟩
    ⟨⟨127, 0, 0, 1⟩, 49152⟩
